import Mathlib

/-!
Shallow embedding of the sql-agent repository (src/vector.py and
src/agent.py) for checking the natural-language specification.

External services (Supabase RPC, Pinecone, the LLM) are modelled by
passing their responses in explicitly: a call that may raise is an
`Except String` value, a `None`-able SQL cell is an `Option String`.
Python strings are modelled as Lean strings over their character lists;
the Python character-class helpers below are restricted to the fragment
the theorems depend on (ASCII plus the listed Unicode code points), as
documented on each definition.
-/

namespace SqlAgent

/-- Whitespace characters matched by the regex class backslash-s in
Python 3 `re` on `str` patterns: ASCII whitespace plus the common
Unicode space code points. -/
def isPySpace (c : Char) : Bool :=
  c = ' ' || c = '\t' || c = '\n' || c = '\r' ||
  c.toNat = 0x0B || c.toNat = 0x0C || c.toNat = 0x85 || c.toNat = 0xA0 ||
  c.toNat = 0x1680 || (0x2000 ≤ c.toNat && c.toNat ≤ 0x200A) ||
  c.toNat = 0x2028 || c.toNat = 0x2029 || c.toNat = 0x202F ||
  c.toNat = 0x205F || c.toNat = 0x3000

/-- One pass of the regex substitution replacing each maximal run of
whitespace with a single space.  The flag records whether the previous
character belonged to a whitespace run. -/
def collapseWS : List Char → Bool → List Char
  | [], _ => []
  | c :: cs, inRun =>
    if isPySpace c then
      if inRun then collapseWS cs true else ' ' :: collapseWS cs true
    else c :: collapseWS cs false

/-- Python `str.strip()` on the character list: drop whitespace from
both ends. -/
def stripWS (l : List Char) : List Char :=
  ((l.dropWhile isPySpace).reverse.dropWhile isPySpace).reverse

/-- The value cleaning of src/vector.py line 110: collapse whitespace
runs to single spaces with the regex substitution, then strip. -/
def normalizeStr (s : String) : String :=
  String.mk (stripWS (collapseWS s.data false))

/-- Python `str.isnumeric` on one character, restricted to the fragment
used here: the ASCII digits exactly, plus a representative set of
non-ASCII numeric code points (superscripts and vulgar fractions of
Latin-1, Arabic-Indic and Devanagari digits, number forms, fullwidth
digits).  Python accepts further non-ASCII numerics; every theorem
below depends only on the ASCII behaviour, which is exact. -/
def pyIsNumericChar (c : Char) : Bool :=
  ('0' ≤ c && c ≤ '9') ||
  (0x80 ≤ c.toNat &&
    (c.toNat = 0xB2 || c.toNat = 0xB3 || c.toNat = 0xB9 ||
     (0xBC ≤ c.toNat && c.toNat ≤ 0xBE) ||
     (0x660 ≤ c.toNat && c.toNat ≤ 0x669) ||
     (0x966 ≤ c.toNat && c.toNat ≤ 0x96F) ||
     (0x2150 ≤ c.toNat && c.toNat ≤ 0x2189) ||
     (0xFF10 ≤ c.toNat && c.toNat ≤ 0xFF19)))

/-- Python `str.isnumeric`: non-empty and every character numeric. -/
def pyIsNumeric (s : String) : Bool :=
  !(s.data.isEmpty) && s.data.all pyIsNumericChar

/-- The regular expression `^[0-9]+$` of the specification: non-empty
and every character an ASCII digit. -/
def matchesDigitsOnly (s : String) : Bool :=
  !(s.data.isEmpty) && s.data.all (fun c => '0' ≤ c && c ≤ '9')

/-- Every character of the string is ASCII. -/
def asciiOnly (s : String) : Bool :=
  s.data.all (fun c => c.toNat < 0x80)

/-- A table/column pair produced by `get_table_columns`
(src/vector.py lines 70-76). -/
structure TableConfig where
  table : String
  column : String
deriving DecidableEq

/-- The metadata dictionary attached to one indexed value
(src/vector.py lines 114-117). -/
structure EntryMetadata where
  table_name : String
  column_name : String
deriving DecidableEq

/-- One element of the list built by `fetch_column_content`
(src/vector.py lines 112-118). -/
structure IndexedTextEntry where
  text : String
  metadata : EntryMetadata
deriving DecidableEq

/-- The response of the per-column `SELECT DISTINCT` query for one
table/column pair (src/vector.py lines 98-104): the rows as optional
string cells. -/
structure ColumnBatch where
  config : TableConfig
  rows : List (Option String)
deriving DecidableEq

/-- The per-value filter of src/vector.py lines 107-111: keep the value
only if it is truthy, and its cleaned form is truthy and not numeric;
the result is the cleaned text of a kept value. -/
def cleanValue (v : Option String) : Option String :=
  match v with
  | none => none
  | some s =>
    if s = "" then none
    else
      let cleaned := normalizeStr s
      if cleaned = "" then none
      else if pyIsNumeric cleaned then none
      else some cleaned

/-- The entries contributed by one column batch (src/vector.py
lines 107-119). -/
def batchEntries (b : ColumnBatch) : List IndexedTextEntry :=
  (b.rows.filterMap cleanValue).map
    (fun t => ⟨t, ⟨b.config.table, b.config.column⟩⟩)

/-- The `all_content` list accumulated over every column batch
(src/vector.py lines 96-119). -/
def allContent (batches : List ColumnBatch) : List IndexedTextEntry :=
  (batches.map batchEntries).flatten

/-- The duplicate removal of src/vector.py lines 121-127: first
occurrence of each `text` wins, with the set `seen` passed explicitly. -/
def dedupEntries : List IndexedTextEntry → List String → List IndexedTextEntry
  | [], _ => []
  | e :: rest, seen =>
    if e.text ∈ seen then dedupEntries rest seen
    else e :: dedupEntries rest (e.text :: seen)

/-- `fetch_column_content` (src/vector.py lines 86-134).  Its argument
stands for the outcome of the Supabase calls inside the `try` block: an
exception there is caught, printed, and an empty list is returned
(lines 132-134); otherwise the filtered, deduplicated entries are
returned. -/
def fetch_column_content (rpc : Except String (List ColumnBatch)) :
    Except String (List IndexedTextEntry) :=
  match rpc with
  | .error _ => .ok []
  | .ok batches => .ok (dedupEntries (allContent batches) [])

/-- One row of the information-schema query of `get_table_columns`
(src/vector.py lines 54-68). -/
structure InformationSchemaRow where
  table_name : String
  column_name : String
deriving DecidableEq

/-- `get_table_columns` (src/vector.py lines 47-83): on success the
rows become table configs; an exception is caught, printed, and an
empty list is returned (lines 81-83). -/
def get_table_columns (rpc : Except String (List InformationSchemaRow)) :
    Except String (List TableConfig) :=
  match rpc with
  | .error _ => .ok []
  | .ok rows => .ok (rows.map (fun r => ⟨r.table_name, r.column_name⟩))

/-- The database handle created by `SQLDatabase.from_uri`; only its
dialect is consulted by the rest of src/agent.py. -/
structure SQLDatabase where
  dialect : String
deriving DecidableEq

/-- `create_sql_database` (src/agent.py lines 100-115).  The argument
stands for the outcome of the connection attempt; the `except` clause
logs and re-raises (lines 113-115), so an error propagates. -/
def create_sql_database (connection : Except String SQLDatabase) :
    Except String SQLDatabase :=
  match connection with
  | .error e => .error e
  | .ok db => .ok db

/-- Python `str.lower` on one character, restricted to ASCII (every
input these theorems use is ASCII). -/
def pyLowerChar (c : Char) : Char :=
  if 'A' ≤ c && c ≤ 'Z' then Char.ofNat (c.toNat + 32) else c

/-- Python `str.lower`, ASCII fragment. -/
def pyLowerStr (s : String) : String :=
  String.mk (s.data.map pyLowerChar)

/-- The loop exit test of src/agent.py line 256: the lowercased
question compared for equality with the word quit.  No whitespace is
stripped. -/
def shouldQuit (question : String) : Bool :=
  pyLowerStr question = "quit"

/-- The termination condition the specification describes: trim the
input, lowercase it, compare with quit.  Stated for comparison with
`shouldQuit`; the code performs no trimming. -/
def specQuitAfterTrim (question : String) : Bool :=
  pyLowerStr (String.mk (stripWS question.data)) = "quit"

/-- The interactive loop of `main` (src/agent.py lines 254-261) over an
explicit list of inputs: each question is tested with the quit
condition; on quit the loop ends, otherwise the response
`query_agent agent question` is printed and the loop continues. -/
def runLoop (agent : String → String) : List String → List String
  | [] => []
  | q :: qs =>
    if shouldQuit q then []
    else agent q :: runLoop agent qs

/-- Dictionary lookup: first binding of the key, as in a Python dict
(keys are unique). -/
def lookupKey (k : String) : List (String × String) → Option String
  | [] => none
  | (k2, v) :: rest => if k2 = k then some v else lookupKey k rest

/-- The apology returned when the agent produced no output
(src/agent.py line 232). -/
def apologyMessage : String :=
  "I apologize, but I couldn\x27t generate a response. Please try asking about specific tables like \x27dishes\x27 or \x27menu\x27."

/-- `query_agent` (src/agent.py lines 209-237).  The argument stands
for the outcome of `agent.invoke`: an exception becomes the error
string of line 235-237; a result dictionary that is empty or lacks the
key output yields the apology of line 232; otherwise the output value
is returned.  The return type `String` reflects that every path
returns and nothing is re-raised. -/
def query_agent (invokeResult : Except String (List (String × String))) :
    String :=
  match invokeResult with
  | .error e => "Error querying agent: " ++ e
  | .ok result =>
    if result.isEmpty then apologyMessage
    else
      match lookupKey "output" result with
      | some out => out
      | none => apologyMessage

/-- Python truthiness of an optional environment value: `None` and the
empty string are falsy. -/
def pyTruthy (v : Option String) : Bool :=
  match v with
  | none => false
  | some s => !(s = "")

/-- Rendering of an optional value inside a Python f-string: `None`
prints as the text None. -/
def pyFStrOpt : Option String → String
  | none => "None"
  | some s => s

/-- `get_supabase_connection_string` (src/agent.py lines 85-98) over an
explicit environment.  The first component is the returned connection
string (the f-string of line 98, with `None` rendered textually); the
second records whether the missing-credentials error of lines 95-96
was logged.  The function never raises. -/
def get_supabase_connection_string (env : String → Option String) :
    String × Bool :=
  let host := env "SUPABASE_HOST"
  let database := (env "SUPABASE_DATABASE").getD "postgres"
  let user := (env "SUPABASE_USER").getD "postgres"
  let password := env "SUPABASE_PASSWORD"
  let port := (env "SUPABASE_PORT").getD "5432"
  ("postgresql://" ++ user ++ ":" ++ pyFStrOpt password ++ "@" ++
     pyFStrOpt host ++ ":" ++ port ++ "/" ++ database,
   !(pyTruthy host) || !(pyTruthy password))

/-- A record stored in the vector index: an indexed text with its
embedding and provenance (spec section 3, VectorIndexRecord). -/
structure VectorIndexRecord where
  text : String
  embedding : List ℚ
  table_name : String
  column_name : String
deriving DecidableEq

/-- The `k` of the retriever configured in src/agent.py line 71. -/
def agentRetrieverK : Nat := 10

/-- The `k` of the retriever configured in src/vector.py line 143. -/
def indexerRetrieverK : Nat := 20

/-- Insertion into a score-descending list of scored records. -/
def insertScored (x : ℚ × VectorIndexRecord) :
    List (ℚ × VectorIndexRecord) → List (ℚ × VectorIndexRecord)
  | [] => [x]
  | y :: ys => if y.1 ≤ x.1 then x :: y :: ys else y :: insertScored x ys

/-- Sort scored records by non-increasing score (ties kept in an
arbitrary, implementation-defined order, as the spec allows). -/
def sortScored : List (ℚ × VectorIndexRecord) → List (ℚ × VectorIndexRecord)
  | [] => []
  | x :: xs => insertScored x (sortScored xs)

/-- Modelled from the spec: the nearest-neighbor search behind the
`search_proper_nouns` retriever (spec section 4.2) is performed by the
external vector-index service, not by code under src/; src/agent.py
lines 70-83 and src/vector.py lines 142-156 only configure it with a
top-k.  Following the spec, `resolve` scores every stored record by
the similarity of its embedding to the query embedding, orders by
decreasing similarity, and returns the first `k`; no score threshold
is applied.  The similarity function (cosine, per the spec) is passed
in abstractly since only the induced ordering matters. -/
def resolve (sim : List ℚ → List ℚ → ℚ) (query : List ℚ)
    (records : List VectorIndexRecord) (k : Nat) :
    List VectorIndexRecord :=
  ((sortScored (records.map (fun r => (sim query r.embedding, r)))).take k).map
    Prod.snd

theorem dedupEntries_sublist (l : List IndexedTextEntry) (seen : List String) :
    (dedupEntries l seen).Sublist l := by
  induction l generalizing seen with
  | nil => simp [dedupEntries]
  | cons e rest ih =>
    by_cases h : e.text ∈ seen
    · simp only [dedupEntries, if_pos h]
      exact (ih seen).trans (List.sublist_cons_self e rest)
    · simp only [dedupEntries, if_neg h]
      exact (ih (e.text :: seen)).cons₂ e

theorem mem_map_text_dedupEntries (l : List IndexedTextEntry)
    (seen : List String) (t : String) :
    t ∈ (dedupEntries l seen).map IndexedTextEntry.text ↔
      (t ∈ l.map IndexedTextEntry.text ∧ t ∉ seen) := by
  induction l generalizing seen with
  | nil => simp [dedupEntries]
  | cons e rest ih =>
    by_cases h : e.text ∈ seen
    · simp only [dedupEntries, if_pos h, ih, List.map_cons, List.mem_cons]
      constructor
      · exact fun ⟨hm, hn⟩ => ⟨Or.inr hm, hn⟩
      · rintro ⟨hm | hm, hn⟩
        · exact absurd (hm ▸ h) hn
        · exact ⟨hm, hn⟩
    · simp only [dedupEntries, if_neg h, List.map_cons, List.mem_cons, ih,
        List.mem_cons, not_or]
      constructor
      · rintro (rfl | ⟨hm, hne, hn⟩)
        · exact ⟨Or.inl rfl, h⟩
        · exact ⟨Or.inr hm, hn⟩
      · rintro ⟨rfl | hm, hn⟩
        · exact Or.inl rfl
        · by_cases ht : t = e.text
          · exact Or.inl ht
          · exact Or.inr ⟨hm, ht, hn⟩

theorem nodup_map_text_dedupEntries (l : List IndexedTextEntry)
    (seen : List String) :
    ((dedupEntries l seen).map IndexedTextEntry.text).Nodup := by
  induction l generalizing seen with
  | nil => simp [dedupEntries]
  | cons e rest ih =>
    by_cases h : e.text ∈ seen
    · simpa only [dedupEntries, if_pos h] using ih seen
    · simp only [dedupEntries, if_neg h, List.map_cons]
      refine List.nodup_cons.mpr ⟨?_, ih (e.text :: seen)⟩
      intro hmem
      exact ((mem_map_text_dedupEntries _ _ _).mp hmem).2 (List.mem_cons_self _ _)

theorem find?_of_mem_dedupEntries (l : List IndexedTextEntry)
    (seen : List String) (e : IndexedTextEntry)
    (he : e ∈ dedupEntries l seen) :
    e.text ∉ seen ∧ l.find? (fun x => x.text == e.text) = some e := by
  induction l generalizing seen with
  | nil => simp [dedupEntries] at he
  | cons a rest ih =>
    by_cases h : a.text ∈ seen
    · rw [dedupEntries, if_pos h] at he
      obtain ⟨hne, hfind⟩ := ih seen he
      have hbeq : (a.text == e.text) = false := by
        rw [beq_eq_false_iff_ne]
        intro heq
        exact hne (heq ▸ h)
      refine ⟨hne, ?_⟩
      rw [List.find?_cons, hbeq, hfind]
    · rw [dedupEntries, if_neg h] at he
      rcases List.mem_cons.mp he with rfl | he2
      · refine ⟨h, ?_⟩
        rw [List.find?_cons, beq_self_eq_true]
      · obtain ⟨hne, hfind⟩ := ih (a.text :: seen) he2
        have hneq : a.text ≠ e.text := fun heq =>
          hne (List.mem_cons.mpr (Or.inl heq.symm))
        refine ⟨fun hmem => hne (List.mem_cons_of_mem _ hmem), ?_⟩
        rw [List.find?_cons, beq_eq_false_iff_ne.mpr hneq, hfind]

/-- C1: for every input batch, `fetch_column_content` returns exactly
one entry per distinct normalized text value (the returned text list
has no duplicates and covers exactly the texts of the raw content
stream), each entry being the first occurrence of its text in the raw
stream (so its table/column metadata is the first seen), and the
output is a sublist of the raw stream, hence in first-occurrence
order. -/
theorem fetch_column_content_dedup_first_seen (batches : List ColumnBatch) :
    fetch_column_content (Except.ok batches)
        = Except.ok (dedupEntries (allContent batches) [])
    ∧ ((dedupEntries (allContent batches) []).map IndexedTextEntry.text).Nodup
    ∧ (dedupEntries (allContent batches) []).Sublist (allContent batches)
    ∧ (∀ t : String,
        t ∈ (allContent batches).map IndexedTextEntry.text ↔
          t ∈ (dedupEntries (allContent batches) []).map IndexedTextEntry.text)
    ∧ (dedupEntries (allContent batches) []).all
        (fun e => decide
          ((allContent batches).find? (fun x => x.text == e.text) = some e))
        = true := by
  refine ⟨rfl, nodup_map_text_dedupEntries _ _, dedupEntries_sublist _ _,
    ?_, ?_⟩
  · intro t
    rw [mem_map_text_dedupEntries]
    simp
  · rw [List.all_eq_true]
    intro e he
    rw [decide_eq_true_eq]
    exact (find?_of_mem_dedupEntries _ _ _ he).2

/-- The dishes(name) example batch of the specification. -/
def c3Batch : List ColumnBatch :=
  [⟨⟨"dishes", "name"⟩,
    [some "Paneer Tikka", some "paneer tikka", some "Naan", some "2"]⟩]

/-- C3 counterexample: on the example batch the claimed output of
exactly two entries is wrong; the duplicate test is case-sensitive, so
the value paneer tikka is not collapsed into Paneer Tikka. -/
theorem example_scenario_counterexample :
    fetch_column_content (Except.ok c3Batch) ≠
      Except.ok [⟨"Paneer Tikka", ⟨"dishes", "name"⟩⟩,
                 ⟨"Naan", ⟨"dishes", "name"⟩⟩] := by
  intro h
  have h0 : fetch_column_content (Except.ok c3Batch)
      = Except.ok (dedupEntries (allContent c3Batch) []) := rfl
  rw [h0] at h
  have h2 := Except.ok.inj h
  revert h2
  decide

/-- C3 amended: on the example batch `fetch_column_content` returns
exactly three entries, Paneer Tikka, paneer tikka and Naan, all with
metadata dishes/name; only the value 2 is excluded (as numeric), and
the two casings of the dish name are both kept because deduplication
is by exact post-normalization string equality. -/
theorem example_scenario_three_entries :
    fetch_column_content (Except.ok c3Batch) =
      Except.ok [⟨"Paneer Tikka", ⟨"dishes", "name"⟩⟩,
                 ⟨"paneer tikka", ⟨"dishes", "name"⟩⟩,
                 ⟨"Naan", ⟨"dishes", "name"⟩⟩] := by
  have h0 : fetch_column_content (Except.ok c3Batch)
      = Except.ok (dedupEntries (allContent c3Batch) []) := rfl
  rw [h0]
  congr 1

theorem cleanValue_some_ne_empty (v : Option String) (t : String)
    (h : cleanValue v = some t) : t ≠ "" := by
  match v with
  | none => simp [cleanValue] at h
  | some s =>
    simp only [cleanValue] at h
    by_cases h1 : s = ""
    · simp [h1] at h
    · rw [if_neg h1] at h
      by_cases h2 : normalizeStr s = ""
      · rw [if_pos h2] at h
        exact absurd h (by simp)
      · rw [if_neg h2] at h
        by_cases h3 : pyIsNumeric (normalizeStr s) = true
        · rw [if_pos h3] at h
          exact absurd h (by simp)
        · rw [if_neg h3] at h
          rw [Option.some.injEq] at h
          exact h ▸ h2

theorem text_ne_empty_of_mem_allContent (batches : List ColumnBatch)
    (e : IndexedTextEntry) (he : e ∈ allContent batches) : e.text ≠ "" := by
  rw [allContent, List.mem_flatten] at he
  obtain ⟨l, hl, hel⟩ := he
  rw [List.mem_map] at hl
  obtain ⟨b, _, rfl⟩ := hl
  rw [batchEntries, List.mem_map] at hel
  obtain ⟨t, ht, rfl⟩ := hel
  rw [List.mem_filterMap] at ht
  obtain ⟨v, _, hcv⟩ := ht
  exact cleanValue_some_ne_empty v t hcv

/-- C10: every entry returned by `fetch_column_content` has non-empty
text; a `None` cell, an empty string, and a whitespace-only string
(which normalizes to empty) are all excluded by the value filter. -/
theorem fetched_entries_nonempty_text (batches : List ColumnBatch) :
    (dedupEntries (allContent batches) []).all (fun e => !(e.text == ""))
        = true
    ∧ fetch_column_content (Except.ok batches)
        = Except.ok (dedupEntries (allContent batches) [])
    ∧ cleanValue none = none
    ∧ cleanValue (some "") = none
    ∧ cleanValue (some "   ") = none := by
  refine ⟨?_, rfl, rfl, by decide, by decide⟩
  rw [List.all_eq_true]
  intro e he
  have hmem : e ∈ allContent batches :=
    (dedupEntries_sublist _ _).mem he
  have hne := text_ne_empty_of_mem_allContent batches e hmem
  simpa using hne

theorem pyIsNumericChar_ascii (c : Char) (h : c.toNat < 0x80) :
    pyIsNumericChar c = (decide ('0' ≤ c) && decide (c ≤ '9')) := by
  unfold pyIsNumericChar
  have h128 : decide (0x80 ≤ c.toNat) = false := by
    simp only [decide_eq_false_iff_not]
    omega
  rw [h128]
  simp

theorem all_numeric_eq_all_digit (l : List Char)
    (h : l.all (fun c => decide (c.toNat < 0x80)) = true) :
    l.all pyIsNumericChar
      = l.all (fun c => decide ('0' ≤ c) && decide (c ≤ '9')) := by
  induction l with
  | nil => rfl
  | cons c cs ih =>
    rw [List.all_cons] at h ⊢
    rw [List.all_cons]
    rw [Bool.and_eq_true] at h
    rw [pyIsNumericChar_ascii c (by simpa using h.1), ih h.2]

theorem pyIsNumeric_eq_matchesDigitsOnly (s : String)
    (h : asciiOnly s = true) : pyIsNumeric s = matchesDigitsOnly s := by
  unfold pyIsNumeric matchesDigitsOnly
  rw [all_numeric_eq_all_digit s.data (by simpa [asciiOnly] using h)]

/-- C2 counterexample: the whitespace-only value consisting of three
spaces is truthy, reaches the filter, and is excluded (it normalizes
to the empty string), yet its normalization does not match the pattern
of one-or-more ASCII digits; so exclusion is not equivalent to
matching the pattern. -/
theorem numeric_exclusion_iff_counterexample :
    cleanValue (some "   ") = none
    ∧ matchesDigitsOnly (normalizeStr "   ") = false := by
  exact ⟨by decide, by decide⟩

/-- C2 amended: for every string value whose whitespace-normalized
form is non-empty and all-ASCII, the filter of `fetch_column_content`
excludes it exactly when the normalized form matches one-or-more ASCII
digits.  (Values normalizing to the empty string are additionally
excluded without matching the pattern, and non-ASCII values use the
wider Unicode numeric test of Python `str.isnumeric`.) -/
theorem numeric_exclusion_ascii_iff (s : String)
    (h1 : normalizeStr s ≠ "") (h2 : asciiOnly (normalizeStr s) = true) :
    (cleanValue (some s) = none ↔
      matchesDigitsOnly (normalizeStr s) = true) := by
  have hs : s ≠ "" := by
    intro hse
    apply h1
    rw [hse]
    rfl
  have key : cleanValue (some s)
      = if pyIsNumeric (normalizeStr s) then none
        else some (normalizeStr s) := by
    simp [cleanValue, hs, h1]
  rw [key, pyIsNumeric_eq_matchesDigitsOnly _ h2]
  cases hb : matchesDigitsOnly (normalizeStr s) <;> simp [hb, h1]

/-- C2 witness: the amended equivalence evaluated at the value of two
spaces, one-two-three, two spaces, which normalizes to one-two-three
and is excluded. -/
theorem numeric_exclusion_ascii_iff_witness :
    cleanValue (some "  123  ") = none ↔
      matchesDigitsOnly (normalizeStr "  123  ") = true :=
  numeric_exclusion_ascii_iff "  123  " (by decide) (by decide)

/-- Every whitespace character of the list is a plain space. -/
def onlyPlainSpaces (l : List Char) : Bool :=
  l.all (fun c => !(isPySpace c) || c = ' ')

/-- No two adjacent whitespace characters. -/
def noDoubleSpace : List Char → Bool
  | [] => true
  | [_] => true
  | a :: b :: rest =>
    (!(isPySpace a) || !(isPySpace b)) && noDoubleSpace (b :: rest)

/-- The first character, when present, is not whitespace. -/
def headNotSpace : List Char → Bool
  | [] => true
  | c :: _ => !(isPySpace c)

/-- An already-normalized string in the sense of the specification:
single internal plain spaces, no leading or trailing whitespace. -/
def isNormalizedStr (s : String) : Bool :=
  onlyPlainSpaces s.data && noDoubleSpace s.data &&
    headNotSpace s.data && headNotSpace s.data.reverse

theorem noDoubleSpace_tail (a : Char) (l : List Char)
    (h : noDoubleSpace (a :: l) = true) : noDoubleSpace l = true := by
  cases l with
  | nil => rfl
  | cons b rest =>
    rw [noDoubleSpace, Bool.and_eq_true] at h
    exact h.2

theorem collapseWS_eq_self : ∀ (l : List Char),
    onlyPlainSpaces l = true → noDoubleSpace l = true →
    ∀ b : Bool, (b = true → headNotSpace l = true) → collapseWS l b = l
  | [], _, _, b, _ => by cases b <;> rfl
  | c :: cs, h1, h2, b, hb => by
    have h1c : (!(isPySpace c) || decide (c = ' ')) = true := by
      rw [onlyPlainSpaces, List.all_cons, Bool.and_eq_true] at h1
      exact h1.1
    have h1cs : onlyPlainSpaces cs = true := by
      rw [onlyPlainSpaces, List.all_cons, Bool.and_eq_true] at h1
      exact h1.2
    have h2cs : noDoubleSpace cs = true := noDoubleSpace_tail c cs h2
    by_cases hsp : isPySpace c = true
    · have hbf : b = false := by
        cases b with
        | false => rfl
        | true =>
          have := hb rfl
          rw [headNotSpace, hsp] at this
          exact absurd this (by simp)
      have hc : c = ' ' := by
        rw [hsp] at h1c
        simpa using h1c
      have hhead : headNotSpace cs = true := by
        cases cs with
        | nil => rfl
        | cons d rest =>
          rw [noDoubleSpace, Bool.and_eq_true] at h2
          have := h2.1
          rw [hsp] at this
          simp only [Bool.not_true, Bool.false_or] at this
          rw [headNotSpace, this]
      subst hbf
      rw [collapseWS, if_pos hsp]
      simp only [Bool.false_eq_true, if_false]
      rw [collapseWS_eq_self cs h1cs h2cs true (fun _ => hhead), hc]
    · rw [collapseWS, if_neg hsp,
        collapseWS_eq_self cs h1cs h2cs false (by simp)]

theorem dropWhile_of_headNotSpace (l : List Char)
    (h : headNotSpace l = true) : l.dropWhile isPySpace = l := by
  cases l with
  | nil => rfl
  | cons c cs =>
    rw [headNotSpace] at h
    rw [List.dropWhile_cons]
    simp only [Bool.not_eq_true'] at h
    rw [h]
    simp

theorem stripWS_eq_self (l : List Char) (h1 : headNotSpace l = true)
    (h2 : headNotSpace l.reverse = true) : stripWS l = l := by
  rw [stripWS, dropWhile_of_headNotSpace l h1,
    dropWhile_of_headNotSpace l.reverse h2, List.reverse_reverse]

/-- C9: the normalization applied at src/vector.py line 110 is
idempotent: on a string that is already normalized (only single plain
internal spaces, no leading or trailing whitespace) it returns the
identical string. -/
theorem normalize_idempotent_on_normalized (s : String)
    (h : isNormalizedStr s = true) : normalizeStr s = s := by
  rw [isNormalizedStr, Bool.and_eq_true, Bool.and_eq_true,
    Bool.and_eq_true] at h
  obtain ⟨⟨⟨h1, h2⟩, h3⟩, h4⟩ := h
  rw [normalizeStr,
    collapseWS_eq_self s.data h1 h2 false (by simp),
    stripWS_eq_self s.data h3 h4]

/-- C9 witness: the already-normalized dish name Paneer Tikka is fixed
by the normalization. -/
theorem normalize_idempotent_witness :
    normalizeStr "Paneer Tikka" = "Paneer Tikka" :=
  normalize_idempotent_on_normalized "Paneer Tikka" (by decide)

theorem runLoop_eq_takeWhile (agent : String → String) (qs : List String) :
    runLoop agent qs = (qs.takeWhile (fun q => !(shouldQuit q))).map agent := by
  induction qs with
  | nil => rfl
  | cons q rest ih =>
    by_cases h : shouldQuit q = true
    · simp [runLoop, h, List.takeWhile_cons]
    · rw [Bool.not_eq_true] at h
      simp [runLoop, h, List.takeWhile_cons, ih]

/-- C4 counterexample: the input consisting of quit surrounded by one
space on each side satisfies the termination condition of the claim
(trim, lowercase, compare with quit), yet the loop does not terminate
on it: the question is passed to the agent and a response is
produced. -/
theorem quit_trimming_counterexample :
    specQuitAfterTrim " quit " = true
    ∧ runLoop (fun q => "answered:" ++ q) [" quit "]
        = ["answered: quit "] := by
  exact ⟨by decide, by decide⟩

/-- C4 amended: the loop terminates exactly on those inputs whose
Python-lowercased form equals quit with no whitespace trimming; every
input before the first such one is passed to the agent and the loop
continues.  The plain casings quit, Quit, QUIT, qUiT terminate; inputs
with surrounding whitespace do not. -/
theorem quit_exact_lowercase (agent : String → String) (qs : List String) :
    runLoop agent qs = (qs.takeWhile (fun q => !(shouldQuit q))).map agent
    ∧ shouldQuit "quit" = true ∧ shouldQuit "Quit" = true
    ∧ shouldQuit "QUIT" = true ∧ shouldQuit "qUiT" = true
    ∧ shouldQuit " quit " = false ∧ shouldQuit "quit " = false :=
  ⟨runLoop_eq_takeWhile agent qs, by decide, by decide, by decide,
    by decide, by decide, by decide⟩

/-- C6: `query_agent` converts every failed or empty agent invocation
into a plain response string (an error text or the fixed apology), and
the interactive loop answers every question before the first quit, so
no single bad question ends the run early. -/
theorem query_agent_error_containment
    (invoke : String → Except String (List (String × String)))
    (inputs : List String) :
    (runLoop (fun q => query_agent (invoke q)) inputs).length
        = (inputs.takeWhile (fun q => !(shouldQuit q))).length
    ∧ (∀ e : String,
        query_agent (Except.error e) = "Error querying agent: " ++ e)
    ∧ query_agent (Except.ok []) = apologyMessage
    ∧ query_agent (Except.ok [("intermediate_steps", "steps")])
        = apologyMessage := by
  refine ⟨?_, fun e => rfl, rfl, rfl⟩
  rw [runLoop_eq_takeWhile, List.length_map]

/-- C7 counterexample: a connectivity error inside `get_table_columns`
or `fetch_column_content` is not re-raised: both catch it, print it,
and return normally with an empty list, so startup does not abort
there. -/
theorem connectivity_reraise_counterexample :
    get_table_columns (Except.error "connection refused") = Except.ok []
    ∧ fetch_column_content (Except.error "connection refused")
        = Except.ok [] :=
  ⟨rfl, rfl⟩

/-- C7 amended: only `create_sql_database` re-raises a connectivity
error to its caller (aborting startup); `get_table_columns` and
`fetch_column_content` catch the error, print it, and return an empty
list, so indexing proceeds with no entries instead of aborting. -/
theorem connectivity_error_behavior (e : String) (db : SQLDatabase) :
    create_sql_database (Except.error e) = Except.error e
    ∧ create_sql_database (Except.ok db) = Except.ok db
    ∧ get_table_columns (Except.error e) = Except.ok []
    ∧ fetch_column_content (Except.error e) = Except.ok [] :=
  ⟨rfl, rfl, rfl, rfl⟩

/-- C8: when SUPABASE_HOST or SUPABASE_PASSWORD is absent,
`get_supabase_connection_string` logs the missing-credentials error
but does not raise: it still returns the connection string assembled
from the available values, with None rendered textually for the
missing ones, so the process reaches the connection attempt. -/
theorem missing_credentials_nonfatal (env : String → Option String)
    (h : env "SUPABASE_HOST" = none ∨ env "SUPABASE_PASSWORD" = none) :
    (get_supabase_connection_string env).2 = true
    ∧ (get_supabase_connection_string env).1
        = "postgresql://" ++ ((env "SUPABASE_USER").getD "postgres") ++ ":"
          ++ pyFStrOpt (env "SUPABASE_PASSWORD") ++ "@"
          ++ pyFStrOpt (env "SUPABASE_HOST") ++ ":"
          ++ ((env "SUPABASE_PORT").getD "5432") ++ "/"
          ++ ((env "SUPABASE_DATABASE").getD "postgres") := by
  constructor
  · rcases h with h | h <;> simp [get_supabase_connection_string, h, pyTruthy]
  · rfl

/-- An environment with the password set but the host absent. -/
def hostlessEnv : String → Option String :=
  fun k => if k = "SUPABASE_PASSWORD" then some "secret" else none

/-- C8 witness: the theorem applied to an environment that lacks
SUPABASE_HOST. -/
theorem missing_credentials_nonfatal_witness :
    (get_supabase_connection_string hostlessEnv).2 = true
    ∧ (get_supabase_connection_string hostlessEnv).1
        = "postgresql://" ++ ((hostlessEnv "SUPABASE_USER").getD "postgres")
          ++ ":" ++ pyFStrOpt (hostlessEnv "SUPABASE_PASSWORD") ++ "@"
          ++ pyFStrOpt (hostlessEnv "SUPABASE_HOST") ++ ":"
          ++ ((hostlessEnv "SUPABASE_PORT").getD "5432") ++ "/"
          ++ ((hostlessEnv "SUPABASE_DATABASE").getD "postgres") :=
  missing_credentials_nonfatal hostlessEnv (Or.inl (by decide))

theorem mem_insertScored (x y : ℚ × VectorIndexRecord)
    (l : List (ℚ × VectorIndexRecord)) :
    y ∈ insertScored x l ↔ y = x ∨ y ∈ l := by
  induction l with
  | nil => simp [insertScored]
  | cons z zs ih =>
    by_cases h : z.1 ≤ x.1
    · simp [insertScored, h]
    · simp [insertScored, h, ih]
      tauto

theorem length_insertScored (x : ℚ × VectorIndexRecord)
    (l : List (ℚ × VectorIndexRecord)) :
    (insertScored x l).length = l.length + 1 := by
  induction l with
  | nil => rfl
  | cons z zs ih =>
    by_cases h : z.1 ≤ x.1
    · simp [insertScored, h]
    · simp [insertScored, h, ih]

theorem length_sortScored (l : List (ℚ × VectorIndexRecord)) :
    (sortScored l).length = l.length := by
  induction l with
  | nil => rfl
  | cons x xs ih => rw [sortScored, length_insertScored, ih, List.length_cons]

theorem mem_sortScored (y : ℚ × VectorIndexRecord)
    (l : List (ℚ × VectorIndexRecord)) :
    y ∈ sortScored l ↔ y ∈ l := by
  induction l with
  | nil => simp [sortScored]
  | cons x xs ih => rw [sortScored, mem_insertScored, ih, List.mem_cons]

theorem sorted_insertScored (x : ℚ × VectorIndexRecord)
    (l : List (ℚ × VectorIndexRecord))
    (h : List.Sorted (fun a b : ℚ × VectorIndexRecord => b.1 ≤ a.1) l) :
    List.Sorted (fun a b : ℚ × VectorIndexRecord => b.1 ≤ a.1)
      (insertScored x l) := by
  induction l with
  | nil => simp [insertScored]
  | cons z zs ih =>
    rw [List.sorted_cons] at h
    by_cases hle : z.1 ≤ x.1
    · rw [insertScored, if_pos hle, List.sorted_cons]
      refine ⟨?_, List.sorted_cons.mpr h⟩
      intro b hb
      rcases List.mem_cons.mp hb with rfl | hb
      · exact hle
      · exact (h.1 b hb).trans hle
    · rw [insertScored, if_neg hle, List.sorted_cons]
      refine ⟨?_, ih h.2⟩
      intro b hb
      rcases (mem_insertScored x b zs).mp hb with rfl | hb
      · exact le_of_not_le hle
      · exact h.1 b hb

theorem sorted_sortScored (l : List (ℚ × VectorIndexRecord)) :
    List.Sorted (fun a b : ℚ × VectorIndexRecord => b.1 ≤ a.1)
      (sortScored l) := by
  induction l with
  | nil => simp [sortScored]
  | cons x xs ih => exact sorted_insertScored x (sortScored xs) ih

/-- C5: for every similarity function, query embedding and index
contents, `resolve` returns min(k, n) candidates (all k when at least
k records are stored, so no score threshold removes any), in
non-increasing similarity order, and every returned candidate is a
stored record. -/
theorem resolver_topk_sorted (sim : List ℚ → List ℚ → ℚ) (query : List ℚ)
    (records : List VectorIndexRecord) (k : Nat) :
    (resolve sim query records k).length = min k records.length
    ∧ List.Sorted (fun a b : ℚ => b ≤ a)
        ((resolve sim query records k).map (fun r => sim query r.embedding))
    ∧ resolve sim query records k ⊆ records := by
  refine ⟨?_, ?_, ?_⟩
  · rw [resolve, List.length_map, List.length_take, length_sortScored,
      List.length_map]
  · have hscore : ∀ p ∈ (sortScored
        (records.map (fun r => (sim query r.embedding, r)))).take k,
        sim query p.2.embedding = p.1 := by
      intro p hp
      have hp2 := (List.take_sublist k _).mem hp
      rw [mem_sortScored, List.mem_map] at hp2
      obtain ⟨r, _, rfl⟩ := hp2
      rfl
    rw [resolve, List.map_map]
    have : ((sortScored
        (records.map (fun r => (sim query r.embedding, r)))).take k).map
          ((fun r => sim query r.embedding) ∘ Prod.snd)
        = ((sortScored
        (records.map (fun r => (sim query r.embedding, r)))).take k).map
          Prod.fst := by
      apply List.map_congr_left
      intro p hp
      exact hscore p hp
    rw [this]
    rw [List.Sorted, List.pairwise_map]
    exact (sorted_sortScored _).sublist (List.take_sublist k _)
  · intro r hr
    rw [resolve, List.mem_map] at hr
    obtain ⟨p, hp, rfl⟩ := hr
    have hp2 := (List.take_sublist k _).mem hp
    rw [mem_sortScored, List.mem_map] at hp2
    obtain ⟨rec, hrec, rfl⟩ := hp2
    exact hrec

end SqlAgent
